import Mathlib

/-
  Verification of the CHERI_Security_Research_Platform corpus.

  The corpus is a set of standalone C demo programs; its specification
  distils a capability-checked memory simulator (Arena / Capability /
  CapabilityTable / MemoryModel) that the corpus implies but never builds.
  The `CheriSpec` namespace models that simulator from the specification's
  own words.  The `Corpus` namespace embeds, directly from the C sources,
  the two concrete allocators the implicit claims are about:
  `cheri_malloc`/`cheri_free` from
  implementations/authentic-cheri/use_after_free_cheri_baremetal.c and
  `simple_malloc` from
  extreme-details/edge-cases/stress-tests/cheri-limits-baremetal.c.

  Machine integers: the C demo allocators use small `int` state (well
  inside 32-bit range on every trace considered here), embedded as `Int`.
  The simulator spec requires all size/offset arithmetic to be carried out
  in a domain where overflow cannot silently wrap ("widen before adding"),
  which the model realises with unbounded `Nat`/`Int`.
-/

namespace CheriSpec

/-- Modelled from the spec: the fault taxonomy of §7 (plus the
`InvalidPermissions` fault named by §4.2 for `restrict_permissions`).
All faults are recoverable result values, never aborts. -/
inductive Fault where
  | OutOfMemory
  | InvalidCapability
  | BoundsViolation
  | PermissionDenied
  | DoubleFree
  | MonotonicityViolation
  | InvalidPermissions
deriving DecidableEq

/-- Modelled from the spec: a permission set is a subset of
\x7bread, write, execute\x7d, represented by three flags. -/
structure PermissionSet where
  r : Bool
  w : Bool
  x : Bool
deriving DecidableEq

/-- The full permission set handed out by `allocate`. -/
def PermissionSet.all : PermissionSet := ⟨true, true, true⟩

/-- Boolean subset test on permission sets. -/
def PermissionSet.subsetOf (p q : PermissionSet) : Bool :=
  (!p.r || q.r) && (!p.w || q.w) && (!p.x || q.x)

/-- Modelled from the spec: a capability value — tag, base (relative to its
allocation), length, cursor offset (an integer: arithmetic may move it
negative or past the end), permission set, and the allocation id it was
derived from (§3 "Capability"). -/
structure Capability where
  tag : Bool
  base : Nat
  length : Nat
  offset : Int
  perms : PermissionSet
  allocId : Nat
deriving DecidableEq

/-- Modelled from the spec: an allocation record — base offset into the
Arena, length, liveness flag (§3 "Allocation record").  The record's index
in the model's list is its allocation id. -/
structure AllocRecord where
  base : Nat
  length : Nat
  live : Bool
deriving DecidableEq

/-- Pointwise byte store update: write the listed bytes at consecutive
addresses starting at `a`. -/
def writeBytes : (Nat → Nat) → Nat → List Nat → (Nat → Nat)
  | f, _, [] => f
  | f, a, b :: bs => writeBytes (fun y => if y = a then b else f y) (a + 1) bs

/-- Modelled from the spec: the MemoryModel facade over a flat Arena —
fixed capacity, byte store, bump offset, and the allocation-record table
used for lazy revocation (§3 "Arena", §4.3 "CapabilityTable"). -/
structure MemoryModel where
  capacity : Nat
  data : Nat → Nat
  allocs : List AllocRecord
  bump : Nat

/-- A fresh MemoryModel over an empty zeroed Arena of the given capacity. -/
def MemoryModel.empty (capacity : Nat) : MemoryModel :=
  { capacity := capacity, data := fun _ => 0, allocs := [], bump := 0 }

/-- Modelled from the spec: `is_live(allocation_id)` — liveness lookup in
the CapabilityTable (§4.3). -/
def MemoryModel.isLive (m : MemoryModel) (id : Nat) : Bool :=
  match m.allocs[id]? with
  | some rec => rec.live
  | none => false

/-- An allocation id that exists in the table and has been freed. -/
def MemoryModel.isDead (m : MemoryModel) (id : Nat) : Bool :=
  match m.allocs[id]? with
  | some rec => !rec.live
  | none => false

/-- Modelled from the spec: `is_valid(cap)` — tag ∧ allocation live; it
does not check offset bounds, which are access-relative (§6). -/
def MemoryModel.is_valid (m : MemoryModel) (cap : Capability) : Bool :=
  cap.tag && m.isLive cap.allocId

/-- Modelled from the spec: `allocate(size)` — fails with `OutOfMemory`
exactly when `size` exceeds the remaining capacity; otherwise appends a
fresh live record at the bump offset and returns a fresh capability with
tag true, relative base 0, length `size`, offset 0 and all permissions
(§4.1, §4.2). -/
def MemoryModel.allocate (m : MemoryModel) (size : Nat) :
    Except Fault Capability × MemoryModel :=
  if m.capacity < m.bump + size then (.error .OutOfMemory, m)
  else
    (.ok { tag := true, base := 0, length := size, offset := 0,
           perms := PermissionSet.all, allocId := m.allocs.length },
     { m with allocs := m.allocs ++ [{ base := m.bump, length := size, live := true }],
              bump := m.bump + size })

/-- Modelled from the spec: `read(cap, len)` — `InvalidCapability` if the
tag is false or the allocation is dead; `BoundsViolation` if
`offset < 0 || offset + len > length`; otherwise the bytes at
`allocation.base + cap.base + cap.offset .. + len` (§4.4). -/
def MemoryModel.read (m : MemoryModel) (cap : Capability) (len : Nat) :
    Except Fault (List Nat) :=
  if ¬(cap.tag = true ∧ m.isLive cap.allocId = true) then .error .InvalidCapability
  else if cap.offset < 0 ∨ (cap.length : Int) < cap.offset + (len : Int) then
    .error .BoundsViolation
  else
    match m.allocs[cap.allocId]? with
    | some rec =>
        .ok ((List.range len).map fun i =>
          m.data (rec.base + cap.base + cap.offset.toNat + i))
    | none => .error .InvalidCapability

/-- Modelled from the spec: `write(cap, bytes)` — the same validity and
bounds checks as `read`, plus `PermissionDenied` when WRITE is absent;
on success mutates the Arena bytes in place, atomically — a faulting
write leaves the model unchanged (§4.4). -/
def MemoryModel.write (m : MemoryModel) (cap : Capability) (bs : List Nat) :
    Except Fault Unit × MemoryModel :=
  if ¬(cap.tag = true ∧ m.isLive cap.allocId = true) then (.error .InvalidCapability, m)
  else if cap.offset < 0 ∨ (cap.length : Int) < cap.offset + (bs.length : Int) then
    (.error .BoundsViolation, m)
  else if cap.perms.w = false then (.error .PermissionDenied, m)
  else
    match m.allocs[cap.allocId]? with
    | some rec =>
        (.ok (), { m with data := writeBytes m.data (rec.base + cap.base + cap.offset.toNat) bs })
    | none => (.error .InvalidCapability, m)

/-- Modelled from the spec: `free(cap)` — requires the tag true (else
`InvalidCapability`); delegates to the CapabilityTable: a second free of an
already-dead allocation returns `DoubleFree` and leaves the state
unchanged; on success flips the liveness flag, lazily invalidating every
alias of the allocation (§4.3, §4.4). -/
def MemoryModel.free (m : MemoryModel) (cap : Capability) :
    Except Fault Unit × MemoryModel :=
  if cap.tag = false then (.error .InvalidCapability, m)
  else
    match m.allocs[cap.allocId]? with
    | none => (.error .InvalidCapability, m)
    | some rec =>
        if rec.live = false then (.error .DoubleFree, m)
        else (.ok (), { m with allocs := m.allocs.set cap.allocId { rec with live := false } })

/-- Modelled from the spec: `copy(dest, src, len)` — `read` then `write`,
failing atomically: a fault from either phase leaves the model unchanged
(§4.4). -/
def MemoryModel.copy (m : MemoryModel) (dest src : Capability) (len : Nat) :
    Except Fault Unit × MemoryModel :=
  match m.read src len with
  | .error e => (.error e, m)
  | .ok bs => m.write dest bs

/-- Modelled from the spec: `offset_by(cap, delta)` — a total function:
pointer arithmetic never faults; only the cursor changes (§4.2). -/
def offset_by (cap : Capability) (delta : Int) : Capability :=
  { cap with offset := cap.offset + delta }

/-- Modelled from the spec: `narrow(cap, new_base_rel, new_len)` —
requires `cap.tag`, `new_base_rel ≥ 0` and
`new_base_rel + new_len ≤ cap.length`, else `BoundsViolation`; produces a
tag-true capability with tighter bounds, the same permissions and the same
allocation id (the cursor restarts at 0) (§4.2). -/
def narrow (cap : Capability) (new_base_rel : Int) (new_len : Nat) :
    Except Fault Capability :=
  if cap.tag = true ∧ 0 ≤ new_base_rel ∧
      new_base_rel + (new_len : Int) ≤ (cap.length : Int) then
    .ok { cap with base := cap.base + new_base_rel.toNat, length := new_len, offset := 0 }
  else .error .BoundsViolation

/-- Modelled from the spec: `restrict_permissions(cap, subset)` — requires
`subset ⊆ cap.perms`, else `InvalidPermissions`; keeps bounds, narrows
permissions, tag unchanged (§4.2). -/
def restrict_permissions (cap : Capability) (subset : PermissionSet) :
    Except Fault Capability :=
  if subset.subsetOf cap.perms = true then .ok { cap with perms := subset }
  else .error .InvalidPermissions

/-- A scenario operation fed to the MemoryModel by the external
ScenarioRunner (§2): the state-changing part of the public API. -/
inductive Op where
  | alloc (size : Nat)
  | writeOp (cap : Capability) (bs : List Nat)
  | freeOp (cap : Capability)
  | copyOp (dest src : Capability) (len : Nat)

/-- One scenario step: apply an operation, keeping the resulting state. -/
def step (m : MemoryModel) : Op → MemoryModel
  | .alloc size => (m.allocate size).2
  | .writeOp cap bs => (m.write cap bs).2
  | .freeOp cap => (m.free cap).2
  | .copyOp dest src len => (m.copy dest src len).2

/-- Run a scenario: fold `step` over a list of operations. -/
def run (m : MemoryModel) (ops : List Op) : MemoryModel :=
  ops.foldl step m

/-- One allocation step of an allocate-only scenario. -/
def allocStep (m : MemoryModel) (size : Nat) : MemoryModel :=
  (m.allocate size).2

/-- Run an allocate-only scenario from a given state. -/
def allocMany (m : MemoryModel) (sizes : List Nat) : MemoryModel :=
  sizes.foldl allocStep m

/-- Total length of a list of allocation records. -/
def totalLen : List AllocRecord → Nat
  | [] => 0
  | rec :: rest => rec.length + totalLen rest

/-- The bump-allocator layout: each record starts exactly where the
previous one ended, the first at `b`. -/
def stacked : Nat → List AllocRecord → Prop
  | _, [] => True
  | b, rec :: rest => rec.base = b ∧ stacked (b + rec.length) rest

/-- Arena well-formedness: records are stacked from 0, the bump offset is
their total length, and it never exceeds capacity. -/
def MemoryModel.wf (m : MemoryModel) : Prop :=
  stacked 0 m.allocs ∧ m.bump = totalLen m.allocs ∧ m.bump ≤ m.capacity

end CheriSpec

namespace Corpus

/-- `simple_malloc` from
extreme-details/edge-cases/stress-tests/cheri-limits-baremetal.c: a bump
allocator over `static char heap_memory[8192]`.  The state is the C
`static int heap_offset`; the returned pointer `&heap_memory[heap_offset]`
is represented by its index, `none` standing for the null return. -/
def simple_malloc (heap_offset : Int) (size : Int) : Option Int × Int :=
  if 8192 ≤ heap_offset + size then (none, heap_offset)
  else (some heap_offset, heap_offset + size)

/-- The mutable state of use_after_free_cheri_baremetal.c: `static int
next_alloc` and the prefix of `static cap_ptr_t allocated_caps[32]` filled
so far (its length is `num_caps`).  In this build `cheri_bounds_set(ptr,
size)` is `ptr`, so a tracked capability is a pointer: `some k` stands for
`&memory_pool[k]` and `none` for the null pointer that `cheri_tag_clear`
stores. -/
structure CheriState where
  next_alloc : Int
  allocated_caps : List (Option Int)
deriving DecidableEq

/-- The process-start state: empty pool, empty tracking table. -/
def CheriState.start : CheriState := ⟨0, []⟩

/-- `cheri_malloc` from use_after_free_cheri_baremetal.c: fails (returns
null) when `next_alloc + size >= 1024`; otherwise returns
`&memory_pool[next_alloc]`, bumps `next_alloc`, and registers the
capability only while `num_caps < 32`. -/
def cheri_malloc (s : CheriState) (size : Int) : Option Int × CheriState :=
  if 1024 ≤ s.next_alloc + size then (none, s)
  else
    (some s.next_alloc,
     { next_alloc := s.next_alloc + size,
       allocated_caps :=
         if s.allocated_caps.length < 32 then s.allocated_caps ++ [some s.next_alloc]
         else s.allocated_caps })

/-- The loop body of `cheri_free`: clear (set to null) the first tracked
entry equal to the freed pointer, leaving the rest untouched. -/
def clearFirst : List (Option Int) → Int → List (Option Int)
  | [], _ => []
  | c :: rest, p => if c = some p then none :: rest else c :: clearFirst rest p

/-- `cheri_free` from use_after_free_cheri_baremetal.c: a null argument
returns at once; otherwise the first matching entry of `allocated_caps`
has its tag cleared (the entry becomes null). -/
def cheri_free (s : CheriState) (ptr : Option Int) : CheriState :=
  match ptr with
  | none => s
  | some p => { s with allocated_caps := clearFirst s.allocated_caps p }

/-- A call into the allocator of use_after_free_cheri_baremetal.c. -/
inductive CheriOp where
  | malloc (size : Int)
  | free (ptr : Option Int)

/-- Apply one allocator call to the state. -/
def cheriStep (s : CheriState) : CheriOp → CheriState
  | .malloc size => (cheri_malloc s size).2
  | .free ptr => cheri_free s ptr

/-- Run a sequence of allocator calls from a given state. -/
def runCheri (s : CheriState) (ops : List CheriOp) : CheriState :=
  ops.foldl cheriStep s

/-- Run a sequence of `cheri_malloc` calls, keeping only the state. -/
def mallocMany (s : CheriState) (sizes : List Int) : CheriState :=
  sizes.foldl (fun t sz => (cheri_malloc t sz).2) s

end Corpus

open CheriSpec

theorem PermissionSet.subsetOf_refl (p : PermissionSet) : p.subsetOf p = true := by
  obtain ⟨a, b, c⟩ := p
  cases a <;> cases b <;> cases c <;> rfl

/-- C1: `offset_by` is total — it only moves the cursor by `delta`, leaving
base, length, tag, permissions and allocation id unchanged — and bounds are
enforced only at dereference: on a tag-true, live capability, any `read` or
`write` whose effective offset is negative, or at/after the length with at
least one byte accessed, returns `BoundsViolation` instead of touching
adjacent memory. -/
theorem C1_offset_by_total_and_bounds_at_deref :
    (∀ (cap : Capability) (delta : Int),
      offset_by cap delta = { cap with offset := cap.offset + delta }) ∧
    (∀ (m : MemoryModel) (cap : Capability) (len : Nat),
      cap.tag = true → m.isLive cap.allocId = true →
      (cap.offset < 0 ∨ ((cap.length : Int) ≤ cap.offset ∧ 1 ≤ len)) →
      m.read cap len = .error .BoundsViolation) ∧
    (∀ (m : MemoryModel) (cap : Capability) (bs : List Nat),
      cap.tag = true → m.isLive cap.allocId = true →
      (cap.offset < 0 ∨ ((cap.length : Int) ≤ cap.offset ∧ 1 ≤ bs.length)) →
      (m.write cap bs).1 = .error .BoundsViolation) := by
  refine ⟨fun cap delta => rfl, ?_, ?_⟩
  · intro m cap len h1 h2 h3
    unfold MemoryModel.read
    rw [if_neg (by simp [h1, h2]), if_pos ?_]
    rcases h3 with h | ⟨h, hlen⟩
    · exact Or.inl h
    · right
      omega
  · intro m cap bs h1 h2 h3
    unfold MemoryModel.write
    rw [if_neg (by simp [h1, h2]), if_pos ?_]
    rcases h3 with h | ⟨h, hlen⟩
    · exact Or.inl h
    · right
      omega

/-- Witness for C1 at a concrete input: a live 5-byte capability moved to
offset −1 by `offset_by`, whose dereference then faults with
`BoundsViolation` for both `read` and `write`. -/
theorem C1_offset_by_total_and_bounds_at_deref_witness :
    (offset_by
        { tag := true, base := 0, length := 5, offset := 0,
          perms := PermissionSet.all, allocId := 0 } (-1) =
      { tag := true, base := 0, length := 5, offset := -1,
        perms := PermissionSet.all, allocId := 0 }) ∧
    (MemoryModel.read
        { capacity := 10, data := fun _ => 0,
          allocs := [{ base := 0, length := 5, live := true }], bump := 5 }
        { tag := true, base := 0, length := 5, offset := -1,
          perms := PermissionSet.all, allocId := 0 } 1 =
      .error .BoundsViolation) ∧
    ((MemoryModel.write
        { capacity := 10, data := fun _ => 0,
          allocs := [{ base := 0, length := 5, live := true }], bump := 5 }
        { tag := true, base := 0, length := 5, offset := -1,
          perms := PermissionSet.all, allocId := 0 } [7]).1 =
      .error .BoundsViolation) := by
  refine ⟨?_, ?_, ?_⟩
  · have h := C1_offset_by_total_and_bounds_at_deref.1
      { tag := true, base := 0, length := 5, offset := 0,
        perms := PermissionSet.all, allocId := 0 } (-1)
    exact h
  · exact C1_offset_by_total_and_bounds_at_deref.2.1
      { capacity := 10, data := fun _ => 0,
        allocs := [{ base := 0, length := 5, live := true }], bump := 5 }
      { tag := true, base := 0, length := 5, offset := -1,
        perms := PermissionSet.all, allocId := 0 } 1
      rfl rfl (Or.inl (by decide))
  · exact C1_offset_by_total_and_bounds_at_deref.2.2
      { capacity := 10, data := fun _ => 0,
        allocs := [{ base := 0, length := 5, live := true }], bump := 5 }
      { tag := true, base := 0, length := 5, offset := -1,
        perms := PermissionSet.all, allocId := 0 } [7]
      rfl rfl (Or.inl (by decide))

/-- C4: monotonicity of derivation — a successful `narrow` requires
`cap.tag`, `0 ≤ new_base_rel` and `new_base_rel + new_len ≤ cap.length`
(and conversely succeeds whenever they hold), and its result never widens:
the derived base is at least the parent's, the derived end is at most the
parent's end, permissions and allocation id are unchanged; a successful
`restrict_permissions` keeps bounds and only shrinks the permission set. -/
theorem C4_derivation_monotonicity :
    (∀ (cap d : Capability) (nb : Int) (nl : Nat),
      narrow cap nb nl = .ok d →
      cap.tag = true ∧ 0 ≤ nb ∧ nb + (nl : Int) ≤ (cap.length : Int) ∧
      d.tag = true ∧ cap.base ≤ d.base ∧
      d.base + d.length ≤ cap.base + cap.length ∧
      d.perms = cap.perms ∧ d.perms.subsetOf cap.perms = true ∧
      d.allocId = cap.allocId) ∧
    (∀ (cap : Capability) (nb : Int) (nl : Nat),
      cap.tag = true → 0 ≤ nb → nb + (nl : Int) ≤ (cap.length : Int) →
      ∃ d, narrow cap nb nl = .ok d) ∧
    (∀ (cap d : Capability) (sub : PermissionSet),
      restrict_permissions cap sub = .ok d →
      d.base = cap.base ∧ d.length = cap.length ∧ d.tag = cap.tag ∧
      d.allocId = cap.allocId ∧ d.perms.subsetOf cap.perms = true) := by
  refine ⟨?_, ?_, ?_⟩
  · intro cap d nb nl h
    unfold narrow at h
    split at h
    case isTrue hc =>
      obtain ⟨ht, h0, hl⟩ := hc
      injection h with h
      subst h
      refine ⟨ht, h0, hl, ht, ?_, ?_, rfl, PermissionSet.subsetOf_refl _, rfl⟩
      · simp
      · simp only []
        omega
    case isFalse hc => exact absurd h (by simp)
  · intro cap nb nl h1 h2 h3
    refine ⟨{ cap with base := cap.base + nb.toNat, length := nl, offset := 0 }, ?_⟩
    unfold narrow
    rw [if_pos ⟨h1, h2, h3⟩]
  · intro cap d sub h
    unfold restrict_permissions at h
    split at h
    case isTrue hc =>
      injection h with h
      subst h
      exact ⟨rfl, rfl, rfl, rfl, hc⟩
    case isFalse hc => exact absurd h (by simp)

/-- Witness for C4 at a concrete input: narrowing a 10-byte capability to
its middle 4 bytes, and dropping the write and execute permissions. -/
theorem C4_derivation_monotonicity_witness :
    (({ tag := true, base := 0, length := 10, offset := 2,
        perms := PermissionSet.all, allocId := 0 } : Capability).base ≤
      ({ tag := true, base := 3, length := 4, offset := 0,
         perms := PermissionSet.all, allocId := 0 } : Capability).base ∧
     ({ tag := true, base := 3, length := 4, offset := 0,
        perms := PermissionSet.all, allocId := 0 } : Capability).base +
       ({ tag := true, base := 3, length := 4, offset := 0,
          perms := PermissionSet.all, allocId := 0 } : Capability).length ≤
      ({ tag := true, base := 0, length := 10, offset := 2,
         perms := PermissionSet.all, allocId := 0 } : Capability).base +
       ({ tag := true, base := 0, length := 10, offset := 2,
          perms := PermissionSet.all, allocId := 0 } : Capability).length) ∧
    (∃ d, narrow
        { tag := true, base := 0, length := 10, offset := 2,
          perms := PermissionSet.all, allocId := 0 } 3 4 = .ok d) ∧
    (({ tag := true, base := 0, length := 10, offset := 2,
        perms := ⟨true, false, false⟩, allocId := 0 } :
       Capability).perms.subsetOf
      ({ tag := true, base := 0, length := 10, offset := 2,
         perms := PermissionSet.all, allocId := 0 } : Capability).perms = true) := by
  refine ⟨?_, ?_, ?_⟩
  · have h := C4_derivation_monotonicity.1
      { tag := true, base := 0, length := 10, offset := 2,
        perms := PermissionSet.all, allocId := 0 }
      { tag := true, base := 3, length := 4, offset := 0,
        perms := PermissionSet.all, allocId := 0 } 3 4 rfl
    exact ⟨h.2.2.2.2.1, h.2.2.2.2.2.1⟩
  · exact C4_derivation_monotonicity.2.1
      { tag := true, base := 0, length := 10, offset := 2,
        perms := PermissionSet.all, allocId := 0 } 3 4 rfl (by decide) (by decide)
  · have h := C4_derivation_monotonicity.2.2
      { tag := true, base := 0, length := 10, offset := 2,
        perms := PermissionSet.all, allocId := 0 }
      { tag := true, base := 0, length := 10, offset := 2,
        perms := ⟨true, false, false⟩, allocId := 0 }
      ⟨true, false, false⟩ rfl
    exact h.2.2.2.2

/-- C7: `allocate(size)` returns `OutOfMemory` exactly when `size` exceeds
the remaining capacity; a request for exactly the remaining capacity
succeeds, and `allocate 0` succeeds with a valid zero-length capability. -/
theorem C7_allocate_oom_iff_exceeds_remaining
    (m : MemoryModel) (h : m.bump ≤ m.capacity) :
    (∀ size, (m.allocate size).1 = .error .OutOfMemory ↔
      m.capacity - m.bump < size) ∧
    (∃ cap, (m.allocate (m.capacity - m.bump)).1 = .ok cap) ∧
    (∃ cap, (m.allocate 0).1 = .ok cap ∧ cap.length = 0 ∧
      (m.allocate 0).2.is_valid cap = true) := by
  refine ⟨?_, ?_, ?_⟩
  · intro size
    unfold MemoryModel.allocate
    split
    case isTrue hc => simpa using by omega
    case isFalse hc => simpa using by omega
  · refine ⟨{ tag := true, base := 0, length := m.capacity - m.bump, offset := 0,
               perms := PermissionSet.all, allocId := m.allocs.length }, ?_⟩
    unfold MemoryModel.allocate
    rw [if_neg (by omega)]
  · refine ⟨{ tag := true, base := 0, length := 0, offset := 0,
               perms := PermissionSet.all, allocId := m.allocs.length }, ?_, rfl, ?_⟩
    · unfold MemoryModel.allocate
      rw [if_neg (by omega)]
    · unfold MemoryModel.allocate
      rw [if_neg (by omega)]
      simp [MemoryModel.is_valid, MemoryModel.isLive]

/-- Witness for C7 at a concrete input: on a fresh 100-byte Arena,
allocating 101 bytes reports `OutOfMemory`. -/
theorem C7_allocate_oom_iff_exceeds_remaining_witness :
    ((MemoryModel.empty 100).allocate 101).1 = .error .OutOfMemory := by
  have h := (C7_allocate_oom_iff_exceeds_remaining
    (MemoryModel.empty 100) (by decide)).1 101
  exact h.mpr (by decide)

/-- C10: `simple_malloc` accepts a negative size: starting from a fresh
heap, allocating 100 bytes and then calling `simple_malloc` with size −16
passes the capacity guard, returns the non-null pointer
`&heap_memory[100]` inside the heap, and moves `heap_offset` back to 84,
so the next allocation of 10 bytes occupies `[84, 94)`, inside the first
allocation's range `[0, 100)`, instead of failing. -/
theorem C10_simple_malloc_negative_size_overlap :
    Corpus.simple_malloc 0 100 = (some 0, 100) ∧
    Corpus.simple_malloc 100 (-16) = (some 100, 84) ∧
    ((0 : Int) ≤ 100 ∧ (100 : Int) < 8192) ∧
    ((84 : Int) < 100) ∧
    Corpus.simple_malloc 84 10 = (some 84, 94) ∧
    ((0 : Int) ≤ 84 ∧ (84 : Int) + 10 ≤ 100) := by
  decide

theorem MemoryModel.write_ok_or_frame (m : MemoryModel) (cap : Capability)
    (bs : List Nat) : (m.write cap bs).1 = .ok () ∨ (m.write cap bs).2 = m := by
  unfold MemoryModel.write
  split
  · exact Or.inr rfl
  split
  · exact Or.inr rfl
  split
  · exact Or.inr rfl
  split
  · exact Or.inl rfl
  · exact Or.inr rfl

theorem MemoryModel.isLive_elim (m : MemoryModel) (id : Nat)
    (h : m.isLive id = true) :
    ∃ rec, m.allocs[id]? = some rec ∧ rec.live = true := by
  unfold MemoryModel.isLive at h
  rcases hg : m.allocs[id]? with _ | rec
  · rw [hg] at h
    exact absurd h (by simp)
  · rw [hg] at h
    exact ⟨rec, rfl, h⟩

/-- C5: off-by-one boundary and atomicity — through a live, writable
8-byte capability at offset 0, writing 8 bytes succeeds while writing 9
bytes returns `BoundsViolation` with the model unchanged; and any faulting
`copy` leaves the model (in particular every destination byte) exactly as
it was before the call. -/
theorem C5_off_by_one_and_copy_atomicity :
    (∀ (m : MemoryModel) (cap : Capability) (bs : List Nat),
      cap.tag = true → m.isLive cap.allocId = true → cap.perms.w = true →
      cap.offset = 0 → cap.length = 8 → bs.length = 8 →
      (m.write cap bs).1 = .ok ()) ∧
    (∀ (m : MemoryModel) (cap : Capability) (bs : List Nat),
      cap.tag = true → m.isLive cap.allocId = true →
      cap.offset = 0 → cap.length = 8 → bs.length = 9 →
      m.write cap bs = (.error .BoundsViolation, m)) ∧
    (∀ (m : MemoryModel) (dest src : Capability) (len : Nat) (e : Fault),
      (m.copy dest src len).1 = .error e → (m.copy dest src len).2 = m) := by
  refine ⟨?_, ?_, ?_⟩
  · intro m cap bs h1 h2 hw hoff hlen hbs
    obtain ⟨rec, hg, _⟩ := MemoryModel.isLive_elim m cap.allocId h2
    unfold MemoryModel.write
    rw [if_neg (by simp [h1, h2]), if_neg (by rw [hoff, hlen, hbs]; omega),
      if_neg (by simp [hw]), hg]
  · intro m cap bs h1 h2 hoff hlen hbs
    unfold MemoryModel.write
    rw [if_neg (by simp [h1, h2]), if_pos (by rw [hoff, hlen, hbs]; omega)]
  · intro m dest src len e h
    unfold MemoryModel.copy at h ⊢
    rcases hr : m.read src len with e' | bs
    · rfl
    · rw [hr] at h
      have h' : (m.write dest bs).1 = Except.error e := h
      show (m.write dest bs).2 = m
      rcases MemoryModel.write_ok_or_frame m dest bs with hok | hfr
      · rw [h'] at hok
        exact absurd hok (by simp)
      · exact hfr

/-- Witness for C5 at concrete inputs: an 8-byte live allocation accepts
an 8-byte write, rejects a 9-byte write leaving the state unchanged, and a
faulting copy (through a tag-false source) leaves the state unchanged. -/
theorem C5_off_by_one_and_copy_atomicity_witness :
    ((MemoryModel.write
        { capacity := 10, data := fun _ => 0,
          allocs := [{ base := 0, length := 8, live := true }], bump := 8 }
        { tag := true, base := 0, length := 8, offset := 0,
          perms := PermissionSet.all, allocId := 0 }
        (List.replicate 8 0)).1 = .ok ()) ∧
    (MemoryModel.write
        { capacity := 10, data := fun _ => 0,
          allocs := [{ base := 0, length := 8, live := true }], bump := 8 }
        { tag := true, base := 0, length := 8, offset := 0,
          perms := PermissionSet.all, allocId := 0 }
        (List.replicate 9 0) =
      (.error .BoundsViolation,
        { capacity := 10, data := fun _ => 0,
          allocs := [{ base := 0, length := 8, live := true }], bump := 8 })) ∧
    ((MemoryModel.copy
        { capacity := 10, data := fun _ => 0,
          allocs := [{ base := 0, length := 8, live := true }], bump := 8 }
        { tag := true, base := 0, length := 8, offset := 0,
          perms := PermissionSet.all, allocId := 0 }
        { tag := false, base := 0, length := 8, offset := 0,
          perms := PermissionSet.all, allocId := 0 } 4).2 =
      { capacity := 10, data := fun _ => 0,
        allocs := [{ base := 0, length := 8, live := true }], bump := 8 }) := by
  refine ⟨?_, ?_, ?_⟩
  · exact C5_off_by_one_and_copy_atomicity.1
      { capacity := 10, data := fun _ => 0,
        allocs := [{ base := 0, length := 8, live := true }], bump := 8 }
      { tag := true, base := 0, length := 8, offset := 0,
        perms := PermissionSet.all, allocId := 0 }
      (List.replicate 8 0) rfl rfl rfl rfl rfl rfl
  · exact C5_off_by_one_and_copy_atomicity.2.1
      { capacity := 10, data := fun _ => 0,
        allocs := [{ base := 0, length := 8, live := true }], bump := 8 }
      { tag := true, base := 0, length := 8, offset := 0,
        perms := PermissionSet.all, allocId := 0 }
      (List.replicate 9 0) rfl rfl rfl rfl rfl
  · exact C5_off_by_one_and_copy_atomicity.2.2
      { capacity := 10, data := fun _ => 0,
        allocs := [{ base := 0, length := 8, live := true }], bump := 8 }
      { tag := true, base := 0, length := 8, offset := 0,
        perms := PermissionSet.all, allocId := 0 }
      { tag := false, base := 0, length := 8, offset := 0,
        perms := PermissionSet.all, allocId := 0 } 4
      .InvalidCapability rfl

/-- C6: `allocate 0` always succeeds (whenever the Arena's bump offset has
not exceeded its capacity) and returns a valid tag-true zero-length
capability; on it, `read cap 0` succeeds with the empty byte list, while
any access of nonzero length returns `BoundsViolation`. -/
theorem C6_zero_length_capability
    (m : MemoryModel) (h : m.bump ≤ m.capacity) :
    ∃ cap m1, m.allocate 0 = (.ok cap, m1) ∧ cap.tag = true ∧ cap.length = 0 ∧
      m1.is_valid cap = true ∧ m1.read cap 0 = .ok [] ∧
      ∀ len, 1 ≤ len → m1.read cap len = .error .BoundsViolation := by
  have hlive : MemoryModel.isLive
      { m with allocs := m.allocs ++ [{ base := m.bump, length := 0, live := true }],
               bump := m.bump } m.allocs.length = true := by
    simp [MemoryModel.isLive]
  refine ⟨{ tag := true, base := 0, length := 0, offset := 0,
             perms := PermissionSet.all, allocId := m.allocs.length },
          { m with allocs := m.allocs ++ [{ base := m.bump, length := 0, live := true }],
                   bump := m.bump }, ?_, rfl, rfl, ?_, ?_, ?_⟩
  · unfold MemoryModel.allocate
    rw [if_neg (by omega)]
    rfl
  · simp [MemoryModel.is_valid, MemoryModel.isLive]
  · unfold MemoryModel.read
    rw [if_neg (by simp [hlive]), if_neg (by simp)]
    show (match (m.allocs ++ [{ base := m.bump, length := 0, live := true }])[m.allocs.length]? with
      | some rec => Except.ok ((List.range 0).map fun i =>
          m.data (rec.base + 0 + (Int.toNat 0) + i))
      | none => Except.error Fault.InvalidCapability) = Except.ok []
    rw [List.getElem?_concat_length]
    rfl
  · intro len hlen
    unfold MemoryModel.read
    rw [if_neg (by simp [hlive]), if_pos (Or.inr (by show (0:Int) < 0 + (len:Int); omega))]

/-- Witness for C6 at a concrete input: a fresh 16-byte Arena. -/
theorem C6_zero_length_capability_witness :
    ∃ cap m1, (MemoryModel.empty 16).allocate 0 = (.ok cap, m1) ∧
      cap.tag = true ∧ cap.length = 0 ∧ m1.is_valid cap = true ∧
      m1.read cap 0 = .ok [] ∧
      ∀ len, 1 ≤ len → m1.read cap len = .error .BoundsViolation :=
  C6_zero_length_capability (MemoryModel.empty 16) (by decide)

theorem writeBytes_eq_of_lt (bs : List Nat) :
    ∀ (f : Nat → Nat) (a y : Nat), y < a → writeBytes f a bs y = f y := by
  induction bs with
  | nil => intro f a y _; rfl
  | cons b bs ih =>
    intro f a y hy
    show writeBytes (fun z => if z = a then b else f z) (a + 1) bs y = f y
    rw [ih _ _ _ (by omega)]
    exact if_neg (by omega)

theorem writeBytes_eq_of_ge (bs : List Nat) :
    ∀ (f : Nat → Nat) (a y : Nat), a + bs.length ≤ y → writeBytes f a bs y = f y := by
  induction bs with
  | nil => intro f a y _; rfl
  | cons b bs ih =>
    intro f a y hy
    show writeBytes (fun z => if z = a then b else f z) (a + 1) bs y = f y
    rw [ih _ _ _ (by simp at hy ⊢; omega)]
    exact if_neg (by simp at hy; omega)

theorem writeBytes_get (bs : List Nat) :
    ∀ (f : Nat → Nat) (a i : Nat) (hi : i < bs.length),
      writeBytes f a bs (a + i) = bs[i] := by
  induction bs with
  | nil => intro f a i hi; exact absurd hi (by simp)
  | cons b bs ih =>
    intro f a i hi
    show writeBytes (fun z => if z = a then b else f z) (a + 1) bs (a + i) = _
    match i with
    | 0 =>
      rw [writeBytes_eq_of_lt _ _ _ _ (by omega)]
      simp
    | i + 1 =>
      have : a + (i + 1) = (a + 1) + i := by omega
      rw [this, ih _ _ _ (by simp at hi; omega)]
      simp

/-- C3: no silent wraparound — with unbounded (pre-widened) arithmetic as
the spec mandates, a `read`/`write` through a tag-true live capability
either succeeds and touches exactly the byte range
`[alloc.base + cap.base + offset, .. + len)` — every touched relative
index lying inside `[0, cap.length)`, all other Arena bytes untouched — or
returns `BoundsViolation`; no offset/length combination can make an
out-of-range address pass the bounds check. -/
theorem C3_no_silent_wraparound :
    (∀ (m : MemoryModel) (cap : Capability) (len : Nat) (rec : AllocRecord),
      cap.tag = true → m.isLive cap.allocId = true →
      m.allocs[cap.allocId]? = some rec →
      ((0 ≤ cap.offset ∧ cap.offset + (len : Int) ≤ (cap.length : Int)) →
        (m.read cap len = .ok ((List.range len).map fun i =>
          m.data (rec.base + cap.base + cap.offset.toNat + i)) ∧
         ∀ i, i < len → cap.offset.toNat + i < cap.length)) ∧
      (¬(0 ≤ cap.offset ∧ cap.offset + (len : Int) ≤ (cap.length : Int)) →
        m.read cap len = .error .BoundsViolation)) ∧
    (∀ (m : MemoryModel) (cap : Capability) (bs : List Nat) (rec : AllocRecord),
      cap.tag = true → m.isLive cap.allocId = true →
      m.allocs[cap.allocId]? = some rec →
      ((0 ≤ cap.offset ∧ cap.offset + (bs.length : Int) ≤ (cap.length : Int) ∧
          cap.perms.w = true) →
        ((m.write cap bs).1 = .ok () ∧
         (∀ y, (y < rec.base + cap.base + cap.offset.toNat ∨
            rec.base + cap.base + cap.offset.toNat + bs.length ≤ y) →
            (m.write cap bs).2.data y = m.data y) ∧
         (∀ i, (hi : i < bs.length) →
            (m.write cap bs).2.data (rec.base + cap.base + cap.offset.toNat + i) = bs[i]) ∧
         (∀ i, i < bs.length → cap.offset.toNat + i < cap.length))) ∧
      (¬(0 ≤ cap.offset ∧ cap.offset + (bs.length : Int) ≤ (cap.length : Int)) →
        m.write cap bs = (.error .BoundsViolation, m))) := by
  constructor
  · intro m cap len rec h1 h2 hg
    constructor
    · rintro ⟨ho, hl⟩
      constructor
      · unfold MemoryModel.read
        rw [if_neg (by simp [h1, h2]), if_neg (by omega), hg]
      · intro i hi
        omega
    · intro hn
      unfold MemoryModel.read
      rw [if_neg (by simp [h1, h2]), if_pos (by omega)]
  · intro m cap bs rec h1 h2 hg
    constructor
    · rintro ⟨ho, hl, hw⟩
      have hwrite : m.write cap bs =
          (.ok (),
           { m with
               data := writeBytes m.data (rec.base + cap.base + cap.offset.toNat) bs }) := by
        unfold MemoryModel.write
        rw [if_neg (by simp [h1, h2]), if_neg (by omega), if_neg (by simp [hw]), hg]
      refine ⟨by rw [hwrite], ?_, ?_, ?_⟩
      · intro y hy
        rw [hwrite]
        show writeBytes m.data (rec.base + cap.base + cap.offset.toNat) bs y = m.data y
        rcases hy with hy | hy
        · exact writeBytes_eq_of_lt _ _ _ _ hy
        · exact writeBytes_eq_of_ge _ _ _ _ hy
      · intro i hi
        rw [hwrite]
        show writeBytes m.data (rec.base + cap.base + cap.offset.toNat) bs
          (rec.base + cap.base + cap.offset.toNat + i) = bs[i]
        exact writeBytes_get _ _ _ _ hi
      · intro i hi
        omega
    · intro hn
      unfold MemoryModel.write
      rw [if_neg (by simp [h1, h2]), if_pos (by omega)]

/-- Witness for C3 at concrete inputs: a live 4-byte capability reads 2
bytes successfully, and a 100-byte read through it faults with
`BoundsViolation`. -/
theorem C3_no_silent_wraparound_witness :
    (MemoryModel.read
        { capacity := 8, data := fun _ => 0,
          allocs := [{ base := 0, length := 4, live := true }], bump := 4 }
        { tag := true, base := 0, length := 4, offset := 0,
          perms := PermissionSet.all, allocId := 0 } 2 = .ok [0, 0]) ∧
    (MemoryModel.read
        { capacity := 8, data := fun _ => 0,
          allocs := [{ base := 0, length := 4, live := true }], bump := 4 }
        { tag := true, base := 0, length := 4, offset := 0,
          perms := PermissionSet.all, allocId := 0 } 100 =
      .error .BoundsViolation) := by
  constructor
  · have h := ((C3_no_silent_wraparound.1
      { capacity := 8, data := fun _ => 0,
        allocs := [{ base := 0, length := 4, live := true }], bump := 4 }
      { tag := true, base := 0, length := 4, offset := 0,
        perms := PermissionSet.all, allocId := 0 } 2
      { base := 0, length := 4, live := true } rfl rfl rfl).1 (by decide)).1
    exact Eq.trans h rfl
  · exact (C3_no_silent_wraparound.1
      { capacity := 8, data := fun _ => 0,
        allocs := [{ base := 0, length := 4, live := true }], bump := 4 }
      { tag := true, base := 0, length := 4, offset := 0,
        perms := PermissionSet.all, allocId := 0 } 100
      { base := 0, length := 4, live := true } rfl rfl rfl).2 (by decide)

theorem MemoryModel.isDead_elim (m : MemoryModel) (id : Nat)
    (h : m.isDead id = true) :
    ∃ rec, m.allocs[id]? = some rec ∧ rec.live = false := by
  unfold MemoryModel.isDead at h
  rcases hg : m.allocs[id]? with _ | rec
  · rw [hg] at h
    exact absurd h (by simp)
  · rw [hg] at h
    refine ⟨rec, rfl, ?_⟩
    simp at h
    exact h

theorem MemoryModel.isLive_eq_false_of_isDead (m : MemoryModel) (id : Nat)
    (h : m.isDead id = true) : m.isLive id = false := by
  obtain ⟨rec, hg, hr⟩ := MemoryModel.isDead_elim m id h
  unfold MemoryModel.isLive
  rw [hg]
  exact hr

theorem MemoryModel.isDead_of_lookup (m' m : MemoryModel) (id : Nat)
    (hl : m'.allocs[id]? = m.allocs[id]?) (h : m.isDead id = true) :
    m'.isDead id = true := by
  unfold MemoryModel.isDead at h ⊢
  rw [hl]
  exact h

theorem MemoryModel.write_allocs (m : MemoryModel) (cap : Capability)
    (bs : List Nat) : (m.write cap bs).2.allocs = m.allocs := by
  unfold MemoryModel.write
  split
  · rfl
  split
  · rfl
  split
  · rfl
  split
  · rfl
  · rfl

theorem MemoryModel.read_invalid (m : MemoryModel) (cap : Capability) (len : Nat)
    (h : m.isLive cap.allocId = false) :
    m.read cap len = .error .InvalidCapability := by
  unfold MemoryModel.read
  rw [if_pos (by simp [h])]

theorem MemoryModel.write_invalid (m : MemoryModel) (cap : Capability) (bs : List Nat)
    (h : m.isLive cap.allocId = false) :
    m.write cap bs = (.error .InvalidCapability, m) := by
  unfold MemoryModel.write
  rw [if_pos (by simp [h])]

theorem MemoryModel.free_doublefree (m : MemoryModel) (cap : Capability)
    (h1 : cap.tag = true) (hd : m.isDead cap.allocId = true) :
    m.free cap = (.error .DoubleFree, m) := by
  obtain ⟨rec, hg, hr⟩ := MemoryModel.isDead_elim m cap.allocId hd
  unfold MemoryModel.free
  rw [if_neg (by simp [h1]), hg]
  show (if rec.live = false then (Except.error Fault.DoubleFree, m)
    else (Except.ok (), { m with allocs := m.allocs.set cap.allocId { rec with live := false } }))
    = (Except.error Fault.DoubleFree, m)
  rw [if_pos hr]

theorem MemoryModel.free_ok_dead (m m1 : MemoryModel) (cap : Capability)
    (h : m.free cap = (.ok (), m1)) :
    cap.tag = true ∧ m1.isDead cap.allocId = true := by
  unfold MemoryModel.free at h
  split at h
  · simp at h
  · next htag =>
    split at h
    · simp at h
    · next rec hrec =>
      split at h
      · simp at h
      · next hlive =>
        have hm1 : m1 = { m with allocs := m.allocs.set cap.allocId { rec with live := false } } := by
          have h2 := congrArg Prod.snd h
          exact h2.symm
        have hlt : cap.allocId < m.allocs.length := by
          by_contra hc
          rw [List.getElem?_eq_none (by omega)] at hrec
          exact absurd hrec (by simp)
        refine ⟨by revert htag; cases cap.tag <;> simp, ?_⟩
        subst hm1
        simp [MemoryModel.isDead, List.getElem?_set, hlt]

theorem MemoryModel.isDead_step (m : MemoryModel) (id : Nat) (op : Op)
    (h : m.isDead id = true) : (step m op).isDead id = true := by
  obtain ⟨r, hg, hr⟩ := MemoryModel.isDead_elim m id h
  have hlt : id < m.allocs.length := by
    by_contra hc
    rw [List.getElem?_eq_none (by omega)] at hg
    exact absurd hg (by simp)
  cases op with
  | alloc size =>
    show (m.allocate size).2.isDead id = true
    unfold MemoryModel.allocate
    split
    · exact h
    · refine MemoryModel.isDead_of_lookup _ m id ?_ h
      show (m.allocs ++ [{ base := m.bump, length := size, live := true }])[id]? =
        m.allocs[id]?
      rw [List.getElem?_append, if_pos hlt]
  | writeOp cap bs =>
    show (m.write cap bs).2.isDead id = true
    refine MemoryModel.isDead_of_lookup _ m id ?_ h
    rw [MemoryModel.write_allocs]
  | freeOp cap =>
    show (m.free cap).2.isDead id = true
    unfold MemoryModel.free
    split
    · exact h
    split
    · exact h
    · next rec hrec =>
      split
      · exact h
      · next hlive =>
        by_cases hid : id = cap.allocId
        · subst hid
          rw [hrec] at hg
          injection hg with hg
          rw [hg] at hlive
          exact absurd hr hlive
        · refine MemoryModel.isDead_of_lookup _ m id ?_ h
          show (m.allocs.set cap.allocId
            { base := rec.base, length := rec.length, live := false })[id]? = m.allocs[id]?
          rw [List.getElem?_set_ne]
          omega
  | copyOp dest src len =>
    show (m.copy dest src len).2.isDead id = true
    unfold MemoryModel.copy
    split
    · exact h
    · refine MemoryModel.isDead_of_lookup _ m id ?_ h
      rw [MemoryModel.write_allocs]

theorem MemoryModel.isDead_run (ops : List Op) :
    ∀ (m : MemoryModel) (id : Nat), m.isDead id = true →
      (run m ops).isDead id = true := by
  induction ops with
  | nil => intro m id h; exact h
  | cons op ops ih => intro m id h; exact ih _ _ (MemoryModel.isDead_step m id op h)

/-- C2: temporal safety — when `free cap` succeeds, `is_valid cap` is
false afterwards; and after any further sequence of operations, every
`read`/`write` through `cap` or any alias sharing its allocation id
returns `InvalidCapability`, and a `free` through any tag-true alias of
the same allocation (in particular a second `free` of `cap` itself)
returns `DoubleFree` with the state unchanged — never a crash or a silent
no-op — for the remainder of the process lifetime. -/
theorem C2_temporal_safety (m m1 : MemoryModel) (cap : Capability)
    (hfree : m.free cap = (.ok (), m1)) :
    m1.is_valid cap = false ∧ cap.tag = true ∧
    ∀ (ops : List Op) (cap2 : Capability), cap2.allocId = cap.allocId →
      (∀ len, (run m1 ops).read cap2 len = .error .InvalidCapability) ∧
      (∀ bs, (run m1 ops).write cap2 bs = (.error .InvalidCapability, run m1 ops)) ∧
      (cap2.tag = true →
        (run m1 ops).free cap2 = (.error .DoubleFree, run m1 ops)) := by
  obtain ⟨htag, hdead⟩ := MemoryModel.free_ok_dead m m1 cap hfree
  refine ⟨?_, htag, ?_⟩
  · unfold MemoryModel.is_valid
    rw [MemoryModel.isLive_eq_false_of_isDead m1 cap.allocId hdead]
    simp
  · intro ops cap2 hal
    have hd2 : (run m1 ops).isDead cap2.allocId = true := by
      rw [hal]
      exact MemoryModel.isDead_run ops m1 cap.allocId hdead
    have hl2 : (run m1 ops).isLive cap2.allocId = false :=
      MemoryModel.isLive_eq_false_of_isDead _ _ hd2
    exact ⟨fun len => MemoryModel.read_invalid _ cap2 len hl2,
           fun bs => MemoryModel.write_invalid _ cap2 bs hl2,
           fun ht => MemoryModel.free_doublefree _ cap2 ht hd2⟩

/-- Witness for C2 at a concrete input: free a live 50-byte allocation,
then observe `is_valid` false, a read fault, and `DoubleFree` on the
second free (after an intervening allocation). -/
theorem C2_temporal_safety_witness :
    (MemoryModel.is_valid
      { capacity := 64, data := fun _ => 0,
        allocs := [{ base := 0, length := 50, live := false }], bump := 50 }
      { tag := true, base := 0, length := 50, offset := 0,
        perms := PermissionSet.all, allocId := 0 } = false) ∧
    (MemoryModel.read
      (run { capacity := 64, data := fun _ => 0,
             allocs := [{ base := 0, length := 50, live := false }], bump := 50 }
           [Op.alloc 4])
      { tag := true, base := 0, length := 50, offset := 0,
        perms := PermissionSet.all, allocId := 0 } 1 =
      .error .InvalidCapability) ∧
    (MemoryModel.free
      (run { capacity := 64, data := fun _ => 0,
             allocs := [{ base := 0, length := 50, live := false }], bump := 50 }
           [Op.alloc 4])
      { tag := true, base := 0, length := 50, offset := 0,
        perms := PermissionSet.all, allocId := 0 } =
      (.error .DoubleFree,
        run { capacity := 64, data := fun _ => 0,
              allocs := [{ base := 0, length := 50, live := false }], bump := 50 }
            [Op.alloc 4])) := by
  have h := C2_temporal_safety
    { capacity := 64, data := fun _ => 0,
      allocs := [{ base := 0, length := 50, live := true }], bump := 50 }
    { capacity := 64, data := fun _ => 0,
      allocs := [{ base := 0, length := 50, live := false }], bump := 50 }
    { tag := true, base := 0, length := 50, offset := 0,
      perms := PermissionSet.all, allocId := 0 }
    rfl
  have h2 := h.2.2 [Op.alloc 4]
    { tag := true, base := 0, length := 50, offset := 0,
      perms := PermissionSet.all, allocId := 0 } rfl
  exact ⟨h.1, h2.1 1, h2.2.2 rfl⟩

theorem totalLen_append (l : List AllocRecord) (r : AllocRecord) :
    totalLen (l ++ [r]) = totalLen l + r.length := by
  induction l with
  | nil => simp [totalLen]
  | cons x xs ih =>
    show x.length + totalLen (xs ++ [r]) = x.length + totalLen xs + r.length
    rw [ih]
    omega

theorem stacked_append (l : List AllocRecord) (r : AllocRecord) :
    ∀ b, stacked b l → r.base = b + totalLen l → stacked b (l ++ [r]) := by
  induction l with
  | nil =>
    intro b _ hr
    refine ⟨?_, trivial⟩
    simp [totalLen] at hr
    exact hr
  | cons x xs ih =>
    intro b hs hr
    obtain ⟨hx, hxs⟩ := hs
    refine ⟨hx, ih (b + x.length) hxs ?_⟩
    simp [totalLen] at hr
    omega

theorem stacked_base_ge (l : List AllocRecord) :
    ∀ (b k : Nat) (rk : AllocRecord), stacked b l → l[k]? = some rk →
      b ≤ rk.base := by
  induction l with
  | nil =>
    intro b k rk _ hg
    simp at hg
  | cons x xs ih =>
    intro b k rk hs hg
    obtain ⟨hx, hxs⟩ := hs
    cases k with
    | zero =>
      simp at hg
      subst hg
      omega
    | succ k =>
      have := ih (b + x.length) k rk hxs (by simpa using hg)
      omega

theorem stacked_end_le (l : List AllocRecord) :
    ∀ (b k : Nat) (rk : AllocRecord), stacked b l → l[k]? = some rk →
      rk.base + rk.length ≤ b + totalLen l := by
  induction l with
  | nil =>
    intro b k rk _ hg
    simp at hg
  | cons x xs ih =>
    intro b k rk hs hg
    obtain ⟨hx, hxs⟩ := hs
    show rk.base + rk.length ≤ b + (x.length + totalLen xs)
    cases k with
    | zero =>
      simp at hg
      subst hg
      omega
    | succ k =>
      have := ih (b + x.length) k rk hxs (by simpa using hg)
      omega

theorem stacked_ordered (l : List AllocRecord) :
    ∀ (b i j : Nat) (ri rj : AllocRecord), stacked b l → i < j →
      l[i]? = some ri → l[j]? = some rj →
      ri.base + ri.length ≤ rj.base := by
  induction l with
  | nil =>
    intro b i j ri rj _ _ hgi _
    simp at hgi
  | cons x xs ih =>
    intro b i j ri rj hs hij hgi hgj
    obtain ⟨hx, hxs⟩ := hs
    cases j with
    | zero => exact absurd hij (by omega)
    | succ j =>
      cases i with
      | zero =>
        simp at hgi
        subst hgi
        have := stacked_base_ge xs (b + x.length) j rj hxs (by simpa using hgj)
        omega
      | succ i =>
        exact ih (b + x.length) i j ri rj hxs (by omega) (by simpa using hgi)
          (by simpa using hgj)

theorem wf_allocStep (m : MemoryModel) (size : Nat) (h : m.wf) :
    (allocStep m size).wf := by
  obtain ⟨hs, hb, hc⟩ := h
  unfold allocStep MemoryModel.allocate
  split
  · exact ⟨hs, hb, hc⟩
  · next hcap =>
    unfold MemoryModel.wf
    refine ⟨?_, ?_, ?_⟩
    · exact stacked_append m.allocs _ 0 hs (by simp; omega)
    · show m.bump + size = totalLen (m.allocs ++ [{ base := m.bump, length := size, live := true }])
      rw [totalLen_append]
      show m.bump + size = totalLen m.allocs + size
      omega
    · show m.bump + size ≤ m.capacity
      omega

theorem wf_allocMany (sizes : List Nat) :
    ∀ m : MemoryModel, m.wf → (allocMany m sizes).wf := by
  induction sizes with
  | nil => intro m h; exact h
  | cons s sizes ih => intro m h; exact ih _ (wf_allocStep m s h)

theorem allocStep_capacity (m : MemoryModel) (size : Nat) :
    (allocStep m size).capacity = m.capacity := by
  unfold allocStep MemoryModel.allocate
  split
  · rfl
  · rfl

theorem allocMany_capacity (sizes : List Nat) :
    ∀ m : MemoryModel, (allocMany m sizes).capacity = m.capacity := by
  induction sizes with
  | nil => intro m; rfl
  | cons s sizes ih =>
    intro m
    show (allocMany (allocStep m s) sizes).capacity = m.capacity
    rw [ih, allocStep_capacity]

theorem wf_empty (capacity : Nat) : (MemoryModel.empty capacity).wf :=
  ⟨trivial, rfl, Nat.zero_le _⟩

/-- C8: for any sequence of `allocate` calls with no intervening `free`,
starting from a fresh Arena, the `[base, base+length)` ranges of the
resulting allocation records are pairwise disjoint and each lies within
`[0, capacity)`. -/
theorem C8_allocations_disjoint (capacity : Nat) (sizes : List Nat)
    (i j : Nat) (ri rj : AllocRecord)
    (hgi : (allocMany (MemoryModel.empty capacity) sizes).allocs[i]? = some ri)
    (hgj : (allocMany (MemoryModel.empty capacity) sizes).allocs[j]? = some rj)
    (hij : i ≠ j) :
    (ri.base + ri.length ≤ rj.base ∨ rj.base + rj.length ≤ ri.base) ∧
    ri.base + ri.length ≤ capacity := by
  obtain ⟨hs, hb, hc⟩ := wf_allocMany sizes (MemoryModel.empty capacity) (wf_empty capacity)
  constructor
  · rcases Nat.lt_or_ge i j with hlt | hge
    · exact Or.inl (stacked_ordered _ 0 i j ri rj hs hlt hgi hgj)
    · exact Or.inr (stacked_ordered _ 0 j i rj ri hs (by omega) hgj hgi)
  · have hend := stacked_end_le _ 0 i ri hs hgi
    have hcap := allocMany_capacity sizes (MemoryModel.empty capacity)
    have hce : (MemoryModel.empty capacity).capacity = capacity := rfl
    omega

/-- Witness for C8 at a concrete input: two allocations of 10 and 20 bytes
from a fresh 100-byte Arena occupy `[0, 10)` and `[10, 30)`. -/
theorem C8_allocations_disjoint_witness :
    (((10 : Nat) ≤ 10 ∨ (10 : Nat) + 20 ≤ 0) ∧ (10 : Nat) ≤ 100) :=
  C8_allocations_disjoint 100 [10, 20] 0 1
    { base := 0, length := 10, live := true }
    { base := 10, length := 20, live := true }
    rfl rfl (by decide)

theorem clearFirst_not_mem : ∀ (l : List (Option Int)) (p : Int),
    some p ∉ l → Corpus.clearFirst l p = l := by
  intro l p
  induction l with
  | nil => intro _; rfl
  | cons c rest ih =>
    intro h
    show (if c = some p then none :: rest else c :: Corpus.clearFirst rest p) = c :: rest
    rw [if_neg ?_, ih ?_]
    · intro hm
      exact h (List.mem_cons_of_mem _ hm)
    · intro hc
      rw [hc] at h
      exact h (List.mem_cons_self _ _)

theorem clearFirst_length : ∀ (l : List (Option Int)) (p : Int),
    (Corpus.clearFirst l p).length = l.length := by
  intro l p
  induction l with
  | nil => rfl
  | cons c rest ih =>
    show (if c = some p then none :: rest else c :: Corpus.clearFirst rest p).length =
      rest.length + 1
    split
    · simp
    · simp [ih]

theorem cheriStep_caps_le (s : Corpus.CheriState) (op : Corpus.CheriOp)
    (h : s.allocated_caps.length ≤ 32) :
    (Corpus.cheriStep s op).allocated_caps.length ≤ 32 := by
  cases op with
  | malloc size =>
    show (Corpus.cheri_malloc s size).2.allocated_caps.length ≤ 32
    unfold Corpus.cheri_malloc
    split
    · exact h
    · show (if s.allocated_caps.length < 32 then s.allocated_caps ++ [some s.next_alloc]
        else s.allocated_caps).length ≤ 32
      split
      · next hlt =>
        simp
        omega
      · exact h
  | free ptr =>
    show (Corpus.cheri_free s ptr).allocated_caps.length ≤ 32
    cases ptr with
    | none => exact h
    | some p =>
      show (Corpus.clearFirst s.allocated_caps p).length ≤ 32
      rw [clearFirst_length]
      exact h

theorem runCheri_caps_le (ops : List Corpus.CheriOp) :
    ∀ s : Corpus.CheriState, s.allocated_caps.length ≤ 32 →
      (Corpus.runCheri s ops).allocated_caps.length ≤ 32 := by
  induction ops with
  | nil => intro s h; exact h
  | cons op ops ih => intro s h; exact ih _ (cheriStep_caps_le s op h)

set_option maxRecDepth 4096 in
/-- Counterexample to C9 at concrete inputs: after 32 zero-sized
`cheri_malloc` calls the tracking table is full (32 entries, `next_alloc`
still 0); then (a) `cheri_malloc 1024` fails the capacity guard and
returns null — so not every post-full allocation succeeds — and (b)
`cheri_malloc 0` succeeds unregistered but returns the address
`&memory_pool[0]`, which coincides with the registered capabilities, so
`cheri_free` of it does change the state: it clears a registered entry's
tag. -/
theorem C9_tracking_table_counterexample :
    (Corpus.mallocMany Corpus.CheriState.start (List.replicate 32 0)).allocated_caps.length
      = 32 ∧
    (Corpus.cheri_malloc
      (Corpus.mallocMany Corpus.CheriState.start (List.replicate 32 0)) 1024).1 = none ∧
    (Corpus.cheri_malloc
      (Corpus.mallocMany Corpus.CheriState.start (List.replicate 32 0)) 0).1 = some 0 ∧
    (Corpus.cheri_malloc
        (Corpus.mallocMany Corpus.CheriState.start (List.replicate 32 0)) 0).2.allocated_caps =
      (Corpus.mallocMany Corpus.CheriState.start (List.replicate 32 0)).allocated_caps ∧
    Corpus.cheri_free
        (Corpus.cheri_malloc
          (Corpus.mallocMany Corpus.CheriState.start (List.replicate 32 0)) 0).2 (some 0) ≠
      (Corpus.cheri_malloc
        (Corpus.mallocMany Corpus.CheriState.start (List.replicate 32 0)) 0).2 := by
  decide

/-- C9 (amended): `num_caps` never exceeds 32 over any call sequence; an
allocation made with the table full succeeds exactly when it passes the
capacity guard (`next_alloc + size < 1024`), and is then not registered
(the table is unchanged); and a later `cheri_free` of a capability whose
pointer is not in the table clears no tag (the state is unchanged). -/
theorem C9_tracking_table_amended :
    (∀ ops : List Corpus.CheriOp,
      (Corpus.runCheri Corpus.CheriState.start ops).allocated_caps.length ≤ 32) ∧
    (∀ (s : Corpus.CheriState) (size : Int), s.allocated_caps.length = 32 →
      (¬(1024 ≤ s.next_alloc + size) →
        Corpus.cheri_malloc s size =
          (some s.next_alloc,
           { next_alloc := s.next_alloc + size, allocated_caps := s.allocated_caps })) ∧
      (1024 ≤ s.next_alloc + size → (Corpus.cheri_malloc s size).1 = none)) ∧
    (∀ (s : Corpus.CheriState) (p : Int), some p ∉ s.allocated_caps →
      Corpus.cheri_free s (some p) = s) := by
  refine ⟨?_, ?_, ?_⟩
  · intro ops
    exact runCheri_caps_le ops Corpus.CheriState.start (by decide)
  · intro s size hlen
    constructor
    · intro hcap
      unfold Corpus.cheri_malloc
      rw [if_neg hcap, if_neg (by omega)]
    · intro hcap
      unfold Corpus.cheri_malloc
      rw [if_pos hcap]
  · intro s p h
    show { s with allocated_caps := Corpus.clearFirst s.allocated_caps p } = s
    rw [clearFirst_not_mem _ _ h]

/-- Witness for the amended C9 at concrete inputs: a full table of 32
entries at address 0 accepts an in-capacity allocation without registering
it, and freeing a pointer not in the table changes nothing. -/
theorem C9_tracking_table_amended_witness :
    (Corpus.cheri_malloc ⟨0, List.replicate 32 (some 0)⟩ 100 =
      (some 0, { next_alloc := 100, allocated_caps := List.replicate 32 (some 0) })) ∧
    (Corpus.cheri_free ⟨0, [some 5]⟩ (some 7) = ⟨0, [some 5]⟩) := by
  constructor
  · exact ((C9_tracking_table_amended.2.1 ⟨0, List.replicate 32 (some 0)⟩ 100
      (by decide)).1 (by decide))
  · exact C9_tracking_table_amended.2.2 ⟨0, [some 5]⟩ 7 (by decide)
